import Mathlib

/-!
Formal model of the secnetperf client driver, a shallow embedding of
src/perf/lib/PerfClient.cpp.  Machine integers are modelled as `Nat` (or `Int`
for the interlocked signed-64 counters); 64-bit unsigned wrap-around is made
explicit (`usub64`) exactly where the source can underflow.  Transport
callbacks become explicit state-passing functions; the asynchronous event
interleavings become traces (lists of events) folded over the state.
-/

namespace PerfClientModel

/-- Unsigned 64-bit subtraction `a - b` as computed by C on `uint64_t`
(wraps modulo 2^64); `a` is assumed reduced (`a < 2^64`), `b` is reduced
explicitly. -/
def usub64 (a b : Nat) : Nat := (a + 2 ^ 64 - b % 2 ^ 64) % 2 ^ 64

/-- The source's `CxPlatTimeDiff64(s, e)`: elapsed microseconds from `s` to `e`,
64-bit wrapping difference `e - s`. -/
def timeDiff64 (s e : Nat) : Nat := usub64 e s

/-- The constant `UINT64_MAX`. -/
def UINT64MAX : Nat := 2 ^ 64 - 1

/-- The constant `UINT32_MAX`. -/
def UINT32MAX : Nat := 2 ^ 32 - 1

/-! ## Worker completion accounting (claim C1)

`PerfClientWorker`'s per-worker connection counters. The source mutates them
with `InterlockedIncrement64`/`InterlockedDecrement64` on `int64_t*`, so they
are modelled as `Int`. -/

structure WorkerCounters where
  connectionsQueued : Int
  connectionsCreated : Int
  connectionsActive : Int
  connectionsCompleted : Int
  deriving Repr, DecidableEq

/-- Externally visible effects of one `PerfClientWorker::OnConnectionComplete`
call: whether `QueueNewConnection` ran and whether
`Client->OnConnectionsComplete()` (which sets `CompletionEvent`) ran. -/
structure WorkerCompleteEffects where
  queuedNew : Bool
  signaledCompletion : Bool
  deriving Repr, DecidableEq

/-- Modelled from the spec: `PerfClientWorker::QueueNewConnection` (its body
lives in the header, which is not under src/) increments `ConnectionsQueued`
and signals `WakeEvent` (spec section 4.2). Only the counter matters here. -/
def queueNewConnection (w : WorkerCounters) : WorkerCounters :=
  { w with connectionsQueued := w.connectionsQueued + 1 }

/-- The function `PerfClientWorker::OnConnectionComplete` (PerfClient.cpp lines 427-438):
increment `ConnectionsCompleted`, decrement `ConnectionsActive`; in repeat
mode requeue, otherwise signal the client when
`!ConnectionsActive && ConnectionsCreated == ConnectionsQueued`. -/
def workerOnConnectionComplete (repeatConnections : Bool) (w : WorkerCounters) :
    WorkerCounters × WorkerCompleteEffects :=
  let w1 := { w with
    connectionsCompleted := w.connectionsCompleted + 1,
    connectionsActive := w.connectionsActive - 1 }
  if repeatConnections then
    (queueNewConnection w1, ⟨true, false⟩)
  else if w1.connectionsActive = 0 ∧ w1.connectionsCreated = w1.connectionsQueued then
    (w1, ⟨false, true⟩)
  else
    (w1, ⟨false, false⟩)

/-! ## Connection connect/shutdown dispatch (claim C5) -/

/-- The two completion paths a connection-level transport event can take. -/
inductive ConnAction where
  | onConnectionComplete
  | onShutdownComplete
  deriving Repr, DecidableEq

/-- The QUIC connection events relevant to dispatch. -/
inductive QuicConnEvent where
  | connected
  | shutdownComplete
  | other
  deriving Repr, DecidableEq

/-- The function `PerfClientConnection::ConnectionCallback` (PerfClient.cpp lines 638-653):
CONNECTED runs `OnConnectionComplete`, SHUTDOWN_COMPLETE runs
`OnShutdownComplete`, everything else is ignored. -/
def connectionCallback : QuicConnEvent → Option ConnAction
  | QuicConnEvent.connected => some ConnAction.onConnectionComplete
  | QuicConnEvent.shutdownComplete => some ConnAction.onShutdownComplete
  | QuicConnEvent.other => none

/-- The function `PerfClientConnection::TcpConnectCallback` (PerfClient.cpp lines 655-667),
exactly as written in the source: the `!IsConnected` branch runs
`OnConnectionComplete` and the `IsConnected` branch runs
`OnShutdownComplete`. -/
def tcpConnectCallback (isConnected : Bool) : ConnAction :=
  if !isConnected then ConnAction.onConnectionComplete
  else ConnAction.onShutdownComplete

/-- Result of `PerfClientConnection::OnConnectionComplete`
(PerfClient.cpp lines 573-583). -/
structure ConnCompleteResult where
  connectionsConnectedDelta : Nat
  shutdownInitiated : Bool
  streamsStarted : Nat
  deriving Repr, DecidableEq

/-- The function `PerfClientConnection::OnConnectionComplete` (PerfClient.cpp lines
573-583): bump `ConnectionsConnected`; with no streams configured shut the
connection down, otherwise start `StreamCount` streams. -/
def connOnConnectionComplete (streamCount : Nat) : ConnCompleteResult :=
  if streamCount = 0 then ⟨1, true, 0⟩
  else ⟨1, false, streamCount⟩

/-! ## Worker target string construction (claim C6) -/

/-- The hex digit table used by `AppendIntToString`. -/
def hexDigit (v : Nat) : Char :=
  "0123456789ABCDEF".toList.getD v '0'

/-- The function `AppendIntToString` (PerfClient.cpp lines 265-270): writes the high hex
digit, the low hex digit, then a NUL terminator. -/
def appendIntToString (value : Nat) : List Char :=
  [hexDigit ((value >>> 4) &&& 0xF), hexDigit (value &&& 0xF), Char.ofNat 0]

/-- Worker target buffer construction in `PerfClient::Start` (PerfClient.cpp
lines 317-325): the client target is copied, then either `AppendIntToString`
(IncrementTarget) or a NUL write at `TargetLen`, and finally the source's
unconditional `Worker->Target.get()[TargetLen] = '\0'` write. -/
def buildWorkerTargetBuffer (target : List Char) (incrementTarget : Bool)
    (processor : Nat) : List Char :=
  let suffix :=
    if incrementTarget then appendIntToString (processor % 256)
    else [Char.ofNat 0]
  (target ++ suffix).set target.length (Char.ofNat 0)

/-- The NUL-terminated C string denoted by a buffer. -/
def cStringOf (buf : List Char) : List Char :=
  buf.takeWhile (fun c => c != Char.ofNat 0)

/-- The per-worker target string the claim describes: the client target,
suffixed with exactly two hexadecimal digits of the processor id when
`IncrementTarget` is set. -/
def claimedWorkerTarget (target : List Char) (incrementTarget : Bool)
    (processor : Nat) : List Char :=
  if incrementTarget then
    target ++ [hexDigit ((processor >>> 4) &&& 0xF), hexDigit (processor &&& 0xF)]
  else target

/-! ## TCP send-complete chain walk (claim C4) -/

/-- A TCP send descriptor (`TcpSendData`), restricted to the fields the
handler reads. -/
structure TcpSendData where
  streamId : Nat
  length : Nat
  isFin : Bool
  isAbort : Bool
  deriving Repr, DecidableEq

/-- The function `PerfClientConnection::GetTcpStream` (PerfClient.cpp lines 619-622): the
connection's `StreamTable` lookup, modelled as an association list from
stream id to a stream object identifier. -/
def getTcpStream (table : List (Nat × Nat)) (id : Nat) : Option Nat :=
  (table.find? (fun e => e.1 == id)).map (fun e => e.2)

/-- One delivered completion: which stream object received `OnSendComplete`,
the completed descriptor's `Length`, and whether that descriptor carried
Fin or Abort (the `SendEndTime` stamping condition). -/
structure TcpSendCompleteEffect where
  stream : Nat
  length : Nat
  finOrAbort : Bool
  deriving Repr, DecidableEq

/-- The function `PerfClientConnection::TcpSendCompleteCallback` (PerfClient.cpp lines
668-690) exactly as in the source: the chain pointer is advanced
(`SendDataChain = Data->Next`) before the lookup, and the lookup then reads
`SendDataChain->StreamId` — the *next* descriptor's id.  On the last node
that pointer is null; the returned flag is true when the walk reaches that
null dereference (a crash), and the effect list holds the completions
delivered before it. -/
def tcpSendCompleteCallback (table : List (Nat × Nat)) :
    List TcpSendData → List TcpSendCompleteEffect × Bool
  | [] => ([], false)
  | d :: rest =>
    match rest with
    | [] => ([], true)
    | next :: _ =>
      let effs :=
        match getTcpStream table next.streamId with
        | some s => [⟨s, d.length, d.isFin || d.isAbort⟩]
        | none => []
      let tail := tcpSendCompleteCallback table rest
      (effs ++ tail.1, tail.2)

/-- The handler the claim describes: every completion is delivered to the
stream whose id equals the `StreamId` of the descriptor currently being
completed, at every position of the chain including the last. -/
def tcpSendCompleteClaimed (table : List (Nat × Nat))
    (chain : List TcpSendData) : List TcpSendCompleteEffect :=
  chain.filterMap (fun d =>
    (getTcpStream table d.streamId).map (fun s => ⟨s, d.length, d.isFin || d.isAbort⟩))

/-! ## The stream send loop (claims C2 and C8) -/

/-- The client configuration fields `PerfClientStream::Send` reads. -/
structure SendClientCfg where
  timed : Bool
  upload : Nat
  ioSize : Nat
  deriving Repr, DecidableEq

/-- The per-stream send-side state. -/
structure SendStreamState where
  startTime : Nat
  bytesSent : Nat
  bytesOutstanding : Nat
  bytesAcked : Nat
  idealSendBuffer : Nat
  sendComplete : Bool
  deriving Repr, DecidableEq

/-- One issued send: its `DataLength`, whether the shrink-to-`LastBuffer`
path was taken, and whether the FIN flag was set. -/
structure SendRecord where
  dataLength : Nat
  usedLastBuffer : Bool
  hasFin : Bool
  deriving Repr, DecidableEq

/-- The quantity `BytesLeftToSend` as computed at the top of the loop body
(PerfClient.cpp lines 763-766): `UINT64_MAX` if timed, else
`Upload - BytesSent` (64-bit wrapping) when uploading, else
`sizeof(uint64_t)`. -/
def bytesLeftToSend (cfg : SendClientCfg) (bytesSent : Nat) : Nat :=
  if cfg.timed then UINT64MAX
  else if cfg.upload ≠ 0 then usub64 cfg.upload bytesSent
  else 8

/-- One iteration of the while-loop body of `PerfClientStream::Send`
(PerfClient.cpp lines 761-798); `now` is what `CxPlatTimeUs64()` returns at
this iteration. -/
def sendStep (cfg : SendClientCfg) (now : Nat) (s : SendStreamState) :
    SendStreamState × SendRecord :=
  let left := bytesLeftToSend cfg s.bytesSent
  if left ≤ cfg.ioSize then
    ({ s with
        bytesSent := s.bytesSent + left,
        bytesOutstanding := s.bytesOutstanding + left,
        sendComplete := true },
      ⟨left, true, true⟩)
  else if cfg.timed ∧ cfg.upload * 1000 ≤ timeDiff64 s.startTime now then
    ({ s with
        bytesSent := s.bytesSent + cfg.ioSize,
        bytesOutstanding := s.bytesOutstanding + cfg.ioSize,
        sendComplete := true },
      ⟨cfg.ioSize, false, true⟩)
  else
    ({ s with
        bytesSent := s.bytesSent + cfg.ioSize,
        bytesOutstanding := s.bytesOutstanding + cfg.ioSize },
      ⟨cfg.ioSize, false, false⟩)

/-- The `PerfClientStream::Send` loop (PerfClient.cpp lines 758-800): iterate
`sendStep` while `!SendComplete && BytesOutstanding < IdealSendBuffer`.
`times fuel` is the clock value at the iteration entered with that much fuel
remaining; the fuel bounds the iteration count (proved sufficient below). -/
def send (cfg : SendClientCfg) (times : Nat → Nat) :
    Nat → SendStreamState → SendStreamState × List SendRecord
  | 0, s => (s, [])
  | fuel + 1, s =>
    if s.sendComplete = false ∧ s.bytesOutstanding < s.idealSendBuffer then
      let step := sendStep cfg (times (fuel + 1)) s
      let rest := send cfg times fuel step.1
      (rest.1, step.2 :: rest.2)
    else (s, [])

/-- Total `DataLength` over a list of issued sends. -/
def sumLen (recs : List SendRecord) : Nat :=
  (recs.map (fun r => r.dataLength)).sum

/-! ## Send/complete interleavings (claim C8) -/

/-- A stream's send-side state together with the lengths of the issued,
not-yet-completed sends (the transport's queue). -/
structure TraceState where
  stream : SendStreamState
  outstanding : List Nat
  deriving Repr, DecidableEq

/-- A `Send` entry plus bookkeeping of the issued lengths. -/
def doSend (cfg : SendClientCfg) (times : Nat → Nat) (fuel : Nat)
    (t : TraceState) : TraceState :=
  let r := send cfg times fuel t.stream
  { stream := r.1, outstanding := t.outstanding ++ r.2.map (fun x => x.dataLength) }

/-- The function `PerfClientStream::OnSendComplete` (PerfClient.cpp lines 802-812) under
the transport contract: `idx` picks one previously issued, not-yet-completed
send, whose `Length` is reported.  `BytesOutstanding -= Length`; when not
canceled, `BytesAcked += Length` and `Send` is re-entered.  An out-of-range
`idx` (a contract violation) is a no-op. -/
def doSendComplete (cfg : SendClientCfg) (idx : Nat) (canceled : Bool)
    (fuel : Nat) (times : Nat → Nat) (t : TraceState) : TraceState :=
  match t.outstanding.get? idx with
  | none => t
  | some len =>
    let rest := t.outstanding.eraseIdx idx
    let s1 := { t.stream with bytesOutstanding := t.stream.bytesOutstanding - len }
    if canceled then { stream := s1, outstanding := rest }
    else
      doSend cfg times fuel
        { stream := { s1 with bytesAcked := s1.bytesAcked + len }, outstanding := rest }

/-- One event of an interleaving of `Send` and `OnSendComplete` calls. -/
inductive StreamEvent where
  | sendCall (fuel : Nat) (times : Nat → Nat)
  | completeCall (idx : Nat) (canceled : Bool) (fuel : Nat) (times : Nat → Nat)

/-- Apply one event. -/
def streamStep (cfg : SendClientCfg) (t : TraceState) : StreamEvent → TraceState
  | StreamEvent.sendCall fuel times => doSend cfg times fuel t
  | StreamEvent.completeCall idx canceled fuel times =>
      doSendComplete cfg idx canceled fuel times t

/-- Run an interleaving from a fresh stream (all byte counters zero, nothing
outstanding). -/
def runTrace (cfg : SendClientCfg) (start ideal : Nat)
    (events : List StreamEvent) : TraceState :=
  events.foldl (streamStep cfg) ⟨⟨start, 0, 0, 0, ideal, false⟩, []⟩

/-! ## Receive path (claim C7) -/

/-- The client fields `PerfClientStream::OnReceive` reads. -/
structure RecvClientCfg where
  timed : Bool
  download : Nat
  useTCP : Bool
  deriving Repr, DecidableEq

/-- The receive-side stream state. -/
structure RecvStreamState where
  bytesReceived : Nat
  recvStartTime : Nat
  recvEndTime : Nat
  sendEndTime : Nat
  deriving Repr, DecidableEq

/-- Result of one `OnReceive` call: the new state, whether an abort-receive
was requested (QUIC `ABORT_RECEIVE` shutdown, or a TCP Abort descriptor),
and whether the stream was finalized inside the call. -/
structure RecvResult where
  state : RecvStreamState
  abortRequested : Bool
  finalized : Bool
  deriving Repr, DecidableEq

/-- The function `PerfClientStream::OnReceive` (PerfClient.cpp lines 814-847).  The local
`Now` cache means `CxPlatTimeUs64()` is consulted at most once per call, so a
single `now` argument is faithful.  Note the source's `} if (Timed)` — the
timed block is *not* an else-branch of the `Finished` block, and it does not
test `Download != 0`. -/
def onReceive (cfg : RecvClientCfg) (now : Nat) (len : Nat) (finished : Bool)
    (s : RecvStreamState) : RecvResult :=
  let s1 := { s with bytesReceived := s.bytesReceived + len }
  let s2 := if s1.recvStartTime = 0 then { s1 with recvStartTime := now } else s1
  let s3 := if finished then { s2 with recvEndTime := now } else s2
  if cfg.timed ∧ cfg.download * 1000 ≤ timeDiff64 s3.recvStartTime now then
    let s4 := { s3 with recvEndTime := now }
    { state := s4,
      abortRequested := true,
      finalized := cfg.useTCP && (s4.sendEndTime != 0) }
  else
    { state := s3, abortRequested := false, finalized := false }

/-! ## Finalize and the latency ring (claim C3) -/

/-- The client fields `OnStreamShutdownComplete` reads. -/
structure FinalizeCfg where
  timed : Bool
  upload : Nat
  download : Nat
  maxLatencyIndex : Nat
  deriving Repr, DecidableEq

/-- A stream's state as it reaches `OnStreamShutdownComplete`. -/
structure StreamFinal where
  startTime : Nat
  sendEndTime : Nat
  recvStartTime : Nat
  recvEndTime : Nat
  bytesAcked : Nat
  bytesReceived : Nat
  deriving Repr, DecidableEq

/-- The shared latency state of the client. -/
structure ClientLatency where
  curLatencyIndex : Nat
  latencyCount : Nat
  latencyValues : List Nat
  streamsCompleted : Nat
  deriving Repr, DecidableEq

/-- The flag `SendSuccess` as computed in `PerfClientStream::OnStreamShutdownComplete`
(PerfClient.cpp lines 852-857). -/
def sendSuccess (cfg : FinalizeCfg) (s : StreamFinal) : Bool :=
  (s.sendEndTime != 0) &&
    !((cfg.upload != 0) &&
      (decide (s.bytesAcked < 8) ||
        (!cfg.timed && decide (s.bytesAcked < cfg.upload))))

/-- The flag `RecvSuccess` as computed in `PerfClientStream::OnStreamShutdownComplete`
(PerfClient.cpp lines 871-876). -/
def recvSuccess (cfg : FinalizeCfg) (s : StreamFinal) : Bool :=
  (s.recvStartTime != 0) && (s.recvEndTime != 0) &&
    !((cfg.download != 0) &&
      ((s.bytesReceived == 0) ||
        (!cfg.timed && decide (s.bytesReceived < cfg.download))))

/-- The latency-recording tail of `PerfClientStream::OnStreamShutdownComplete`
(PerfClient.cpp lines 890-898): when both successes hold, reserve an index
from `CurLatencyIndex`; if below `MaxLatencyIndex`, store the clamped latency
and bump `LatencyCount`; bump `StreamsCompleted`. -/
def finalizeStream (cfg : FinalizeCfg) (s : StreamFinal) (st : ClientLatency) :
    ClientLatency :=
  if sendSuccess cfg s && recvSuccess cfg s then
    let index := st.curLatencyIndex
    let st1 := { st with curLatencyIndex := st.curLatencyIndex + 1 }
    let st2 :=
      if index < cfg.maxLatencyIndex then
        { st1 with
          latencyValues :=
            st1.latencyValues.set index
              (min (timeDiff64 s.startTime s.recvEndTime) UINT32MAX),
          latencyCount := st1.latencyCount + 1 }
      else st1
    { st2 with streamsCompleted := st2.streamsCompleted + 1 }
  else st

/-- Fold `finalizeStream` over a run's finalized streams. -/
def runFinalize (cfg : FinalizeCfg) (streams : List StreamFinal)
    (st : ClientLatency) : ClientLatency :=
  streams.foldl (fun acc s => finalizeStream cfg s acc) st

/-- Number of finalized streams with both `SendSuccess` and `RecvSuccess`. -/
def countSuccess (cfg : FinalizeCfg) (streams : List StreamFinal) : Nat :=
  (streams.filter (fun s => sendSuccess cfg s && recvSuccess cfg s)).length

/-! ## Init validation (claim C9) -/

/-- Hex-character test, for the CIBIR argument. -/
def isHexChar (c : Char) : Bool :=
  c.isDigit || (decide ('a' ≤ c) && decide (c ≤ 'f')) ||
    (decide ('A' ≤ c) && decide (c ≤ 'F'))

/-- Modelled from the spec: `DecodeHexBuffer` (declared outside src/) decodes
a hex string of at most `maxCount` bytes and returns the decoded byte count,
or 0 when the string is malformed, empty, or decodes to more than `maxCount`
bytes (spec sections 4.1 and 6: the CIBIR value is hex of at most 12
characters / 6 bytes and a longer or undecodable one must fail Init). -/
def decodeHexBuffer (s : List Char) (maxCount : Nat) : Nat :=
  if s.length % 2 = 0 ∧ s.length / 2 ≤ maxCount ∧ s.all isHexChar then
    s.length / 2
  else 0

/-- The parsed option values that feed `PerfClient::Init`'s validations. -/
structure ClientArgs where
  target : Option (List Char)
  cibir : Option (List Char)
  ioSize : Nat
  repeatConnections : Bool
  repeatStreams : Bool
  runTime : Nat
  useTCP : Bool
  useEncryption : Bool
  deriving Repr, DecidableEq

/-- The status `PerfClient::Init` reports for these validations. -/
inductive InitStatus where
  | success
  | invalidParameter
  deriving Repr, DecidableEq

/-- The validation sequence of `PerfClient::Init` (PerfClient.cpp lines
68-263) in source order: missing target (line 87), CIBIR decode failure
(line 116), `iosize < 256` (line 195), repeat flags without a runtime
(line 213), TCP without encryption (line 218).  Worker threads are only
created later, in `PerfClient::Start`, so an error here leaves none. -/
def clientInit (a : ClientArgs) : InitStatus :=
  if a.target = none then InitStatus.invalidParameter
  else if (match a.cibir with
           | some s => decodeHexBuffer s 6 == 0
           | none => false) then InitStatus.invalidParameter
  else if a.ioSize < 256 then InitStatus.invalidParameter
  else if (a.repeatConnections || a.repeatStreams) && (a.runTime == 0) then
    InitStatus.invalidParameter
  else if a.useTCP && !a.useEncryption then InitStatus.invalidParameter
  else InitStatus.success

/-! ## Extra-data blob (claim C10) -/

/-- Little-endian byte serialization of `n` into `w` bytes (how
`CxPlatCopyMemory` lays an unsigned integer out on the wire). -/
def toBytesLE : Nat → Nat → List Nat
  | 0, _ => []
  | w + 1, n => n % 256 :: toBytesLE w (n / 256)

/-- Read a little-endian byte list back as a number. -/
def ofBytesLE : List Nat → Nat
  | [] => 0
  | b :: bs => b + 256 * ofBytesLE bs

/-- The client state `PerfClient::GetExtraData` reads. -/
structure ExtraDataInput where
  runTime : Nat
  maxLatencyIndex : Nat
  latencyValues : List Nat
  deriving Repr, DecidableEq

/-- The function `PerfClient::GetExtraData` (PerfClient.cpp lines 390-405): copy the
8-byte `RunTime`, then the 8-byte count `(Length - 16) / 4` derived from the
caller's capacity, then that many 4-byte samples from `LatencyValues`.  The
two `CXPLAT_FRE_ASSERT`s (`MaxLatencyIndex != 0`, `*Length >= 16`) and an
out-of-range sample copy (an out-of-bounds read) are modelled as `none`.
The 8-byte field widths follow the spec's blob layout
`[u64 RunTime][u64 LatencyCount][LatencyCount x u32]` (header not in src/). -/
def getExtraData (c : ExtraDataInput) (len : Nat) : Option (List Nat) :=
  if c.maxLatencyIndex = 0 then none
  else if len < 16 then none
  else
    let latencyCount := (len - 16) / 4
    if c.latencyValues.length < latencyCount then none
    else
      some (toBytesLE 8 c.runTime ++ toBytesLE 8 latencyCount ++
        ((c.latencyValues.take latencyCount).map (toBytesLE 4)).flatten)

/-- Split a byte list into 4-byte little-endian samples. -/
def parseSamples : List Nat → List Nat
  | b0 :: b1 :: b2 :: b3 :: rest => ofBytesLE [b0, b1, b2, b3] :: parseSamples rest
  | _ => []

/-- Read an extra-data blob back: `RunTime`, the sample count, and the
samples. -/
def parseExtraData (blob : List Nat) : Nat × Nat × List Nat :=
  (ofBytesLE (blob.take 8),
   ofBytesLE ((blob.drop 8).take 8),
   parseSamples (blob.drop 16))

/-! ## Theorems -/

/-- Claim C1: each `PerfClientWorker::OnConnectionComplete` call increments
`ConnectionsCompleted` and decrements `ConnectionsActive`; in
repeat-connections mode it queues a new connection (and never signals);
otherwise it invokes `Client.OnConnectionsComplete` (setting
`CompletionEvent`) if and only if, after the decrement,
`ConnectionsActive == 0` and `ConnectionsCreated == ConnectionsQueued`. -/
theorem c1_worker_on_connection_complete (r : Bool) (w : WorkerCounters) :
    (workerOnConnectionComplete r w).1.connectionsCompleted
      = w.connectionsCompleted + 1 ∧
    (workerOnConnectionComplete r w).1.connectionsActive
      = w.connectionsActive - 1 ∧
    (r = true →
      (workerOnConnectionComplete r w).2.queuedNew = true ∧
      (workerOnConnectionComplete r w).1.connectionsQueued
        = w.connectionsQueued + 1 ∧
      (workerOnConnectionComplete r w).2.signaledCompletion = false) ∧
    (r = false →
      ((workerOnConnectionComplete r w).2.signaledCompletion = true ↔
        w.connectionsActive - 1 = 0 ∧
          w.connectionsCreated = w.connectionsQueued)) := by
  by_cases hc : (w.connectionsActive - 1 = 0 ∧ w.connectionsCreated = w.connectionsQueued) <;>
    cases r <;> simp [workerOnConnectionComplete, queueNewConnection, hc]

/-- Witness for C1 at a concrete worker state: queued 2, created 2,
active 1, completed 1; the call must signal completion. -/
theorem c1_worker_on_connection_complete_witness :
    (workerOnConnectionComplete false ⟨2, 2, 1, 1⟩).2.signaledCompletion = true := by
  have h := (c1_worker_on_connection_complete false ⟨2, 2, 1, 1⟩).2.2.2 rfl
  exact h.mpr (by decide)

/-- Claim C5 (code-bug evaluation): in the source,
`TcpConnectCallback(IsConnected = true)` takes `OnShutdownComplete` (the
completion/free path) and `TcpConnectCallback(IsConnected = false)` takes
`OnConnectionComplete` (the stream-opening path) — the reverse of the
claim.  The QUIC CONNECTED dispatch and the behavior of
`OnConnectionComplete` itself match the claim. -/
theorem c5_tcp_connect_dispatch :
    tcpConnectCallback true = ConnAction.onShutdownComplete ∧
    tcpConnectCallback false = ConnAction.onConnectionComplete ∧
    connectionCallback QuicConnEvent.connected
      = some ConnAction.onConnectionComplete ∧
    (connOnConnectionComplete 0).connectionsConnectedDelta = 1 ∧
    (connOnConnectionComplete 0).shutdownInitiated = true ∧
    (connOnConnectionComplete 0).streamsStarted = 0 ∧
    (connOnConnectionComplete 3).connectionsConnectedDelta = 1 ∧
    (connOnConnectionComplete 3).shutdownInitiated = false ∧
    (connOnConnectionComplete 3).streamsStarted = 3 := by
  decide

/-- Claim C6 (code-bug evaluation): with `IncrementTarget` set, the
unconditional NUL write at `TargetLen` clobbers the first hex digit, so the
worker's target C string equals the client target with no suffix; the claim
(and the option's own help text) call for the two-hex-digit suffix. -/
theorem c6_worker_target_bug :
    cStringOf (buildWorkerTargetBuffer ['h', 'o', 's', 't'] true 7)
      = ['h', 'o', 's', 't'] ∧
    claimedWorkerTarget ['h', 'o', 's', 't'] true 7
      = ['h', 'o', 's', 't', '0', '7'] ∧
    cStringOf (buildWorkerTargetBuffer ['h', 'o', 's', 't'] false 7)
      = ['h', 'o', 's', 't'] := by
  decide

/-- Claim C4 (code-bug evaluation): walking a two-descriptor chain
(ids 1 then 2, with streams 10 and 20 in the table), the source delivers the
first descriptor's completion (length 100) to stream 20 — the stream keyed by
the *next* descriptor's id — and dereferences a null chain pointer at the
last node; the claimed behavior delivers each completion to the stream keyed
by the descriptor being completed. -/
theorem c4_tcp_send_complete_bug :
    tcpSendCompleteCallback [(1, 10), (2, 20)]
        [⟨1, 100, false, false⟩, ⟨2, 200, true, false⟩]
      = ([⟨20, 100, false⟩], true) ∧
    tcpSendCompleteClaimed [(1, 10), (2, 20)]
        [⟨1, 100, false, false⟩, ⟨2, 200, true, false⟩]
      = [⟨10, 100, false⟩, ⟨20, 200, true⟩] ∧
    tcpSendCompleteCallback [(1, 10)] [⟨1, 100, true, false⟩] = ([], true) ∧
    tcpSendCompleteClaimed [(1, 10)] [⟨1, 100, true, false⟩]
      = [⟨10, 100, true⟩] := by
  decide

/-- Claim C7 (counterexample): with `Timed` set and `Download == 0` — the
client is not downloading — a non-finished receive still triggers an
abort-receive request in the source. -/
theorem c7_counterexample :
    (onReceive ⟨true, 0, false⟩ 5 10 false ⟨0, 0, 0, 0⟩).abortRequested = true ∧
    RecvClientCfg.download ⟨true, 0, false⟩ = 0 := by
  decide

/-- Claim C7 (amended): `OnReceive` requests an abort-receive if and only if
the run is timed and the elapsed time from `RecvStartTime` (as stamped by
this very call when previously unset) is at least `Download` milliseconds —
with no requirement that the client be downloading and independent of the
`Finished` flag; whenever the abort is requested, `RecvEndTime` is stamped
to the current time.  `BytesReceived` always grows by the received length. -/
theorem c7_abort_receive (cfg : RecvClientCfg) (now len : Nat) (finished : Bool)
    (s : RecvStreamState) :
    ((onReceive cfg now len finished s).abortRequested = true ↔
      cfg.timed = true ∧
        cfg.download * 1000 ≤
          timeDiff64 (if s.recvStartTime = 0 then now else s.recvStartTime) now) ∧
    ((onReceive cfg now len finished s).abortRequested = true →
      (onReceive cfg now len finished s).state.recvEndTime = now) ∧
    (onReceive cfg now len finished s).state.bytesReceived
      = s.bytesReceived + len := by
  by_cases h0 : s.recvStartTime = 0 <;>
    cases finished <;>
    simp [onReceive, h0] <;>
    split_ifs with hif <;>
    simp_all

/-- Witness for C7 at a concrete input: timed run, `Download = 1` ms,
receive start stamped at 500 us, now 2000 us, so 1500 us elapsed forces the
abort request. -/
theorem c7_abort_receive_witness :
    (onReceive ⟨true, 1, false⟩ 2000 4 false ⟨0, 500, 0, 0⟩).abortRequested
      = true := by
  have h := (c7_abort_receive ⟨true, 1, false⟩ 2000 4 false ⟨0, 500, 0, 0⟩).1
  exact h.mpr (by decide)

/-- Helper: how one `finalizeStream` call moves the cursor and the count. -/
theorem finalizeStream_counts (cfg : FinalizeCfg) (s : StreamFinal)
    (st : ClientLatency) :
    (finalizeStream cfg s st).curLatencyIndex
      = st.curLatencyIndex
        + (if (sendSuccess cfg s && recvSuccess cfg s) = true then 1 else 0) ∧
    (finalizeStream cfg s st).latencyCount
      = st.latencyCount
        + (if (sendSuccess cfg s && recvSuccess cfg s) = true ∧
              st.curLatencyIndex < cfg.maxLatencyIndex then 1 else 0) := by
  simp only [finalizeStream]
  split_ifs <;> simp_all

/-- Helper: `runFinalize` over a cons. -/
theorem runFinalize_cons (cfg : FinalizeCfg) (s : StreamFinal)
    (rest : List StreamFinal) (st : ClientLatency) :
    runFinalize cfg (s :: rest) st
      = runFinalize cfg rest (finalizeStream cfg s st) := rfl

/-- Helper: `countSuccess` over a cons. -/
theorem countSuccess_cons (cfg : FinalizeCfg) (s : StreamFinal)
    (rest : List StreamFinal) :
    countSuccess cfg (s :: rest)
      = (if (sendSuccess cfg s && recvSuccess cfg s) = true then 1 else 0)
        + countSuccess cfg rest := by
  simp only [countSuccess, List.filter_cons]
  split_ifs <;> simp_all <;> omega

/-- Helper: the `LatencyCount = min(CurLatencyIndex, MaxLatencyIndex)`
relation is preserved along any sequence of finalizations, and the cursor
counts exactly the doubly-successful streams. -/
theorem runFinalize_counts (cfg : FinalizeCfg) :
    ∀ (streams : List StreamFinal) (st : ClientLatency),
      st.latencyCount = min st.curLatencyIndex cfg.maxLatencyIndex →
      (runFinalize cfg streams st).curLatencyIndex
        = st.curLatencyIndex + countSuccess cfg streams ∧
      (runFinalize cfg streams st).latencyCount
        = min (st.curLatencyIndex + countSuccess cfg streams)
            cfg.maxLatencyIndex := by
  intro streams
  induction streams with
  | nil =>
    intro st h
    constructor
    · simp [runFinalize, countSuccess]
    · simp only [runFinalize, List.foldl_nil, countSuccess, List.filter_nil,
        List.length_nil, Nat.add_zero]
      exact h
  | cons s rest ih =>
    intro st h
    obtain ⟨hc1, hc2⟩ := finalizeStream_counts cfg s st
    have h' : (finalizeStream cfg s st).latencyCount
        = min (finalizeStream cfg s st).curLatencyIndex cfg.maxLatencyIndex := by
      rw [hc1, hc2, h]
      by_cases hs : (sendSuccess cfg s && recvSuccess cfg s) = true <;>
        by_cases hlt : st.curLatencyIndex < cfg.maxLatencyIndex <;>
        simp [hs, hlt] <;> omega
    obtain ⟨hi1, hi2⟩ := ih (finalizeStream cfg s st) h'
    rw [runFinalize_cons, countSuccess_cons, hi1, hi2, hc1]
    by_cases hs : (sendSuccess cfg s && recvSuccess cfg s) = true <;>
      simp [hs] <;> constructor <;> omega

/-- Claim C3 (counterexample): with `MaxLatencyIndex = 1`, the second of two
streams finalized with both `SendSuccess` and `RecvSuccess` records no
latency sample — the reserved index 1 is not below `MaxLatencyIndex`, so
`LatencyCount` stays 1 and `LatencyValues` is unchanged — refuting
"a sample is recorded if and only if both successes hold". -/
theorem c3_counterexample :
    sendSuccess ⟨false, 0, 0, 1⟩ ⟨1, 5, 2, 9, 0, 0⟩ = true ∧
    recvSuccess ⟨false, 0, 0, 1⟩ ⟨1, 5, 2, 9, 0, 0⟩ = true ∧
    runFinalize ⟨false, 0, 0, 1⟩ [⟨1, 5, 2, 9, 0, 0⟩, ⟨1, 5, 2, 9, 0, 0⟩]
        ⟨0, 0, [0], 0⟩
      = ⟨2, 1, [8], 2⟩ := by
  decide

/-- Claim C3 (amended): a latency sample is recorded iff both `SendSuccess`
and `RecvSuccess` hold *and* the reserved index is below `MaxLatencyIndex`;
the recorded value at the reserved index is
`min(RecvEndTime - StartTime, UINT32_MAX)` microseconds; and over any run
from a fresh client state, `LatencyCount = min(number of doubly-successful
finalized streams, MaxLatencyIndex)`. -/
theorem c3_latency_recording (cfg : FinalizeCfg) (streams : List StreamFinal) :
    (runFinalize cfg streams
        ⟨0, 0, List.replicate cfg.maxLatencyIndex 0, 0⟩).latencyCount
      = min (countSuccess cfg streams) cfg.maxLatencyIndex ∧
    (∀ s st, ((finalizeStream cfg s st).latencyCount = st.latencyCount + 1 ↔
      (sendSuccess cfg s && recvSuccess cfg s) = true ∧
        st.curLatencyIndex < cfg.maxLatencyIndex)) ∧
    (∀ s st, (sendSuccess cfg s && recvSuccess cfg s) = true →
      st.curLatencyIndex < cfg.maxLatencyIndex →
      (finalizeStream cfg s st).latencyValues
        = st.latencyValues.set st.curLatencyIndex
            (min (timeDiff64 s.startTime s.recvEndTime) UINT32MAX)) ∧
    (∀ s st, (sendSuccess cfg s && recvSuccess cfg s) = false →
      finalizeStream cfg s st = st) := by
  refine ⟨?_, ?_, ?_, ?_⟩
  · have h := (runFinalize_counts cfg streams
      ⟨0, 0, List.replicate cfg.maxLatencyIndex 0, 0⟩ (by simp)).2
    simpa using h
  · intro s st
    have hc := (finalizeStream_counts cfg s st).2
    rw [hc]
    split_ifs with hi <;> simp_all
  · intro s st hs hi
    simp [finalizeStream, hs, hi]
  · intro s st hs
    simp [finalizeStream, hs]

/-- Witness for C3 at a concrete input: one doubly-successful stream on an
empty ring of capacity 1 stores `min(9 - 1, UINT32_MAX) = 8`. -/
theorem c3_latency_recording_witness :
    (finalizeStream ⟨false, 0, 0, 1⟩ ⟨1, 5, 2, 9, 0, 0⟩
        ⟨0, 0, [0], 0⟩).latencyValues = [8] := by
  have h := (c3_latency_recording ⟨false, 0, 0, 1⟩ []).2.2.1
    ⟨1, 5, 2, 9, 0, 0⟩ ⟨0, 0, [0], 0⟩ (by decide) (by decide)
  rw [h]; decide

/-- Helper: `sumLen` over a cons. -/
theorem sumLen_cons (r : SendRecord) (rs : List SendRecord) :
    sumLen (r :: rs) = r.dataLength + sumLen rs := by
  simp [sumLen]

/-- Helper: full characterization of one `Send`-loop iteration. -/
theorem sendStep_spec (cfg : SendClientCfg) (now : Nat) (s : SendStreamState) :
    (sendStep cfg now s).2.dataLength
      = min cfg.ioSize (bytesLeftToSend cfg s.bytesSent) ∧
    (sendStep cfg now s).1.bytesSent
      = s.bytesSent + (sendStep cfg now s).2.dataLength ∧
    (sendStep cfg now s).1.bytesOutstanding
      = s.bytesOutstanding + (sendStep cfg now s).2.dataLength ∧
    ((sendStep cfg now s).2.usedLastBuffer = true ↔
      bytesLeftToSend cfg s.bytesSent ≤ cfg.ioSize) ∧
    ((sendStep cfg now s).2.hasFin = true ↔
      (bytesLeftToSend cfg s.bytesSent ≤ cfg.ioSize ∨
        (cfg.timed = true ∧ cfg.upload * 1000 ≤ timeDiff64 s.startTime now))) ∧
    (sendStep cfg now s).1.sendComplete
      = (s.sendComplete || (sendStep cfg now s).2.hasFin) ∧
    (sendStep cfg now s).1.bytesAcked = s.bytesAcked ∧
    (sendStep cfg now s).1.idealSendBuffer = s.idealSendBuffer ∧
    (sendStep cfg now s).1.startTime = s.startTime := by
  simp only [sendStep]
  split_ifs with h1 h2 <;> simp_all <;> omega

/-- Helper: a loop entered with `SendComplete` already set exits at once. -/
theorem send_of_sendComplete (cfg : SendClientCfg) (times : Nat → Nat)
    (fuel : Nat) (s : SendStreamState) (h : s.sendComplete = true) :
    send cfg times fuel s = (s, []) := by
  cases fuel <;> simp [send, h]

/-- Helper: accounting over the whole `Send` loop, any fuel: both byte
counters grow by the total issued `DataLength` and the remaining fields are
untouched. -/
theorem send_accounting (cfg : SendClientCfg) (times : Nat → Nat) :
    ∀ (fuel : Nat) (s : SendStreamState),
      (send cfg times fuel s).1.bytesSent
        = s.bytesSent + sumLen (send cfg times fuel s).2 ∧
      (send cfg times fuel s).1.bytesOutstanding
        = s.bytesOutstanding + sumLen (send cfg times fuel s).2 ∧
      (send cfg times fuel s).1.bytesAcked = s.bytesAcked ∧
      (send cfg times fuel s).1.idealSendBuffer = s.idealSendBuffer ∧
      (send cfg times fuel s).1.startTime = s.startTime := by
  intro fuel
  induction fuel with
  | zero => intro s; simp [send, sumLen]
  | succ n ih =>
    intro s
    by_cases hg : (s.sendComplete = false ∧ s.bytesOutstanding < s.idealSendBuffer)
    · obtain ⟨b1, b2, b3, _, _, _, b7, b8, b9⟩ :=
        sendStep_spec cfg (times (n + 1)) s
      obtain ⟨a1, a2, a3, a4, a5⟩ := ih (sendStep cfg (times (n + 1)) s).1
      simp only [send, if_pos hg]
      refine ⟨?_, ?_, ?_, ?_, ?_⟩
      · rw [sumLen_cons, a1, b2]; omega
      · rw [sumLen_cons, a2, b3]; omega
      · rw [a3, b7]
      · rw [a4, b8]
      · rw [a5, b9]
    · simp [send, if_neg hg, sumLen]

/-- Helper: with enough fuel the `Send` loop runs its guard to completion:
on return `SendComplete` holds or `BytesOutstanding ≥ IdealSendBuffer`. -/
theorem send_postcondition (cfg : SendClientCfg) (times : Nat → Nat)
    (hio : cfg.ioSize ≠ 0) :
    ∀ (fuel : Nat) (s : SendStreamState),
      s.idealSendBuffer - s.bytesOutstanding < fuel →
      ((send cfg times fuel s).1.sendComplete = true ∨
        (send cfg times fuel s).1.idealSendBuffer
          ≤ (send cfg times fuel s).1.bytesOutstanding) := by
  intro fuel
  induction fuel with
  | zero => intro s h; omega
  | succ n ih =>
    intro s h
    by_cases hg : (s.sendComplete = false ∧ s.bytesOutstanding < s.idealSendBuffer)
    · obtain ⟨b1, b2, b3, _, b5, b6, b7, b8, b9⟩ :=
        sendStep_spec cfg (times (n + 1)) s
      simp only [send, if_pos hg]
      by_cases hc : (sendStep cfg (times (n + 1)) s).1.sendComplete = true
      · rw [send_of_sendComplete cfg times n _ hc]
        exact Or.inl hc
      · have hfin : (sendStep cfg (times (n + 1)) s).2.hasFin = false := by
          rw [b6, hg.1] at hc
          simp at hc
          exact hc
        have hleft : ¬ bytesLeftToSend cfg s.bytesSent ≤ cfg.ioSize := by
          intro hx
          rw [(b5.mpr (Or.inl hx) : _)] at hfin
          cases hfin
        have hdl : (sendStep cfg (times (n + 1)) s).2.dataLength = cfg.ioSize := by
          rw [b1]; omega
        exact ih (sendStep cfg (times (n + 1)) s).1 (by rw [b8, b3, hdl]; omega)
    · simp only [send, if_neg hg]
      rcases Bool.eq_false_or_eq_true s.sendComplete with hb | hb
      · exact Or.inl hb
      · right
        rcases not_and_or.mp hg with hx | hx
        · exact absurd hb hx
        · omega

/-- Claim C2: each `Send`-loop iteration sends
`DataLength = min(IoSize, BytesLeftToSend)` bytes (where `BytesLeftToSend`
is `UINT64_MAX` if timed, else `Upload - BytesSent` when uploading, else 8),
grows `BytesSent` and `BytesOutstanding` by `DataLength`, and sets FIN and
`SendComplete` exactly when `DataLength` was shrunk (using `LastBuffer`) or
when timed and the elapsed time since `StartTime` is at least `Upload`
milliseconds; on return from the loop `SendComplete` holds or
`BytesOutstanding ≥ IdealSendBuffer`, and the counters grew by the total
issued length. -/
theorem c2_send_loop (cfg : SendClientCfg) (times : Nat → Nat) :
    (∀ now s,
      (sendStep cfg now s).2.dataLength
        = min cfg.ioSize (bytesLeftToSend cfg s.bytesSent) ∧
      (sendStep cfg now s).1.bytesSent
        = s.bytesSent + (sendStep cfg now s).2.dataLength ∧
      (sendStep cfg now s).1.bytesOutstanding
        = s.bytesOutstanding + (sendStep cfg now s).2.dataLength ∧
      (((sendStep cfg now s).2.hasFin = true ∧
          (sendStep cfg now s).1.sendComplete = true) ↔
        (bytesLeftToSend cfg s.bytesSent ≤ cfg.ioSize ∨
          (cfg.timed = true ∧ cfg.upload * 1000 ≤ timeDiff64 s.startTime now))) ∧
      ((sendStep cfg now s).2.usedLastBuffer = true ↔
        bytesLeftToSend cfg s.bytesSent ≤ cfg.ioSize)) ∧
    (∀ fuel s, cfg.ioSize ≠ 0 →
      s.idealSendBuffer - s.bytesOutstanding < fuel →
      (((send cfg times fuel s).1.sendComplete = true ∨
          (send cfg times fuel s).1.idealSendBuffer
            ≤ (send cfg times fuel s).1.bytesOutstanding) ∧
        (send cfg times fuel s).1.bytesSent
          = s.bytesSent + sumLen (send cfg times fuel s).2 ∧
        (send cfg times fuel s).1.bytesOutstanding
          = s.bytesOutstanding + sumLen (send cfg times fuel s).2)) := by
  constructor
  · intro now s
    obtain ⟨b1, b2, b3, b4, b5, b6, b7, b8, b9⟩ := sendStep_spec cfg now s
    refine ⟨b1, b2, b3, ?_, b4⟩
    constructor
    · intro hx
      exact b5.mp hx.1
    · intro hx
      have hf := b5.mpr hx
      exact ⟨hf, by rw [b6, hf]; simp⟩
  · intro fuel s hio hfuel
    obtain ⟨a1, a2, _, _, _⟩ := send_accounting cfg times fuel s
    exact ⟨send_postcondition cfg times hio fuel s hfuel, a1, a2⟩

/-- Witness for C2 at a concrete input: a fresh non-timed stream uploading 8
bytes with `IoSize = 256` completes its send in the loop. -/
theorem c2_send_loop_witness :
    (send ⟨false, 8, 256⟩ (fun _ => 0) 257
        ⟨0, 0, 0, 0, 256, false⟩).1.sendComplete = true ∨
      (send ⟨false, 8, 256⟩ (fun _ => 0) 257
          ⟨0, 0, 0, 0, 256, false⟩).1.idealSendBuffer
        ≤ (send ⟨false, 8, 256⟩ (fun _ => 0) 257
            ⟨0, 0, 0, 0, 256, false⟩).1.bytesOutstanding :=
  ((c2_send_loop ⟨false, 8, 256⟩ (fun _ => 0)).2 257
    ⟨0, 0, 0, 0, 256, false⟩ (by decide) (by decide)).1

/-- Helper: removing the selected element accounts for exactly its value in
the list sum. -/
theorem sum_eraseIdx_get? (l : List Nat) :
    ∀ (i x : Nat), l.get? i = some x → x + (l.eraseIdx i).sum = l.sum := by
  induction l with
  | nil => intro i x h; simp at h
  | cons a t ih =>
    intro i x h
    cases i with
    | zero =>
      simp only [List.get?_cons_zero, Option.some.injEq] at h
      subst h
      simp [List.eraseIdx]
    | succ j =>
      simp only [List.get?_cons_succ] at h
      have := ih j x h
      simp only [List.eraseIdx, List.sum_cons]
      omega

/-- Helper: a `Send` call preserves the outstanding-bytes bookkeeping. -/
theorem doSend_invariant (cfg : SendClientCfg) (times : Nat → Nat) (fuel : Nat)
    (t : TraceState)
    (h1 : t.stream.bytesOutstanding = t.outstanding.sum)
    (h2 : t.stream.bytesAcked + t.outstanding.sum ≤ t.stream.bytesSent) :
    (doSend cfg times fuel t).stream.bytesOutstanding
      = (doSend cfg times fuel t).outstanding.sum ∧
    (doSend cfg times fuel t).stream.bytesAcked
        + (doSend cfg times fuel t).outstanding.sum
      ≤ (doSend cfg times fuel t).stream.bytesSent := by
  obtain ⟨a1, a2, a3, _, _⟩ := send_accounting cfg times fuel t.stream
  simp only [doSend, List.sum_append]
  have hmap : (List.map (fun x => x.dataLength) (send cfg times fuel t.stream).2).sum
      = sumLen (send cfg times fuel t.stream).2 := rfl
  rw [hmap, a1, a2, a3]
  omega

/-- Helper: each event of an interleaving preserves the bookkeeping. -/
theorem streamStep_invariant (cfg : SendClientCfg) (t : TraceState)
    (e : StreamEvent)
    (h1 : t.stream.bytesOutstanding = t.outstanding.sum)
    (h2 : t.stream.bytesAcked + t.outstanding.sum ≤ t.stream.bytesSent) :
    (streamStep cfg t e).stream.bytesOutstanding
      = (streamStep cfg t e).outstanding.sum ∧
    (streamStep cfg t e).stream.bytesAcked
        + (streamStep cfg t e).outstanding.sum
      ≤ (streamStep cfg t e).stream.bytesSent := by
  cases e with
  | sendCall fuel times =>
    exact doSend_invariant cfg times fuel t h1 h2
  | completeCall idx canceled fuel times =>
    simp only [streamStep, doSendComplete]
    cases hx : t.outstanding.get? idx with
    | none => exact ⟨h1, h2⟩
    | some len =>
      have hsum := sum_eraseIdx_get? t.outstanding idx len hx
      cases canceled with
      | true =>
        refine ⟨?_, ?_⟩
        · show t.stream.bytesOutstanding - len = (t.outstanding.eraseIdx idx).sum
          omega
        · show t.stream.bytesAcked + (t.outstanding.eraseIdx idx).sum
            ≤ t.stream.bytesSent
          omega
      | false =>
        exact doSend_invariant cfg times fuel
          ⟨{ t.stream with
              bytesOutstanding := t.stream.bytesOutstanding - len,
              bytesAcked := t.stream.bytesAcked + len },
            t.outstanding.eraseIdx idx⟩
          (by
            show t.stream.bytesOutstanding - len = (t.outstanding.eraseIdx idx).sum
            omega)
          (by
            show t.stream.bytesAcked + len + (t.outstanding.eraseIdx idx).sum
              ≤ t.stream.bytesSent
            omega)

/-- Helper: the bookkeeping holds after any interleaving, from any state
satisfying it. -/
theorem foldl_streamStep_invariant (cfg : SendClientCfg) :
    ∀ (events : List StreamEvent) (t : TraceState),
      t.stream.bytesOutstanding = t.outstanding.sum →
      t.stream.bytesAcked + t.outstanding.sum ≤ t.stream.bytesSent →
      (events.foldl (streamStep cfg) t).stream.bytesOutstanding
        = (events.foldl (streamStep cfg) t).outstanding.sum ∧
      (events.foldl (streamStep cfg) t).stream.bytesAcked
          + (events.foldl (streamStep cfg) t).outstanding.sum
        ≤ (events.foldl (streamStep cfg) t).stream.bytesSent := by
  intro events
  induction events with
  | nil => intro t h1 h2; exact ⟨h1, h2⟩
  | cons e rest ih =>
    intro t h1 h2
    have hstep := streamStep_invariant cfg t e h1 h2
    exact ih (streamStep cfg t e) hstep.1 hstep.2

/-- Claim C8: under the transport contract that each `OnSendComplete`
reports the `Length` of exactly one previously issued, not-yet-completed
send, after every interleaving of `Send` and `OnSendComplete` calls on a
fresh stream, `BytesOutstanding` equals the (nonnegative) sum of the
still-outstanding send lengths, `BytesAcked ≤ BytesSent`, and once every
issued send has completed `BytesOutstanding = 0`. -/
theorem c8_outstanding_invariant (cfg : SendClientCfg) (start ideal : Nat)
    (events : List StreamEvent) :
    (runTrace cfg start ideal events).stream.bytesAcked
      ≤ (runTrace cfg start ideal events).stream.bytesSent ∧
    (runTrace cfg start ideal events).stream.bytesOutstanding
      = (runTrace cfg start ideal events).outstanding.sum ∧
    ((runTrace cfg start ideal events).outstanding = [] →
      (runTrace cfg start ideal events).stream.bytesOutstanding = 0) := by
  simp only [runTrace]
  have h := foldl_streamStep_invariant cfg events
    ⟨⟨start, 0, 0, 0, ideal, false⟩, []⟩ (by simp) (by simp)
  refine ⟨by omega, h.1, ?_⟩
  intro hempty
  rw [h.1, hempty]
  simp

/-- Witness for C8 at a concrete interleaving: one `Send` call (which issues
a single 8-byte FIN send) followed by its completion leaves no outstanding
bytes. -/
theorem c8_outstanding_invariant_witness :
    (runTrace ⟨false, 8, 256⟩ 0 256
        [StreamEvent.sendCall 300 (fun _ => 0),
         StreamEvent.completeCall 0 false 300 (fun _ => 0)]).stream.bytesOutstanding
      = 0 := by
  have h := c8_outstanding_invariant ⟨false, 8, 256⟩ 0 256
    [StreamEvent.sendCall 300 (fun _ => 0),
     StreamEvent.completeCall 0 false 300 (fun _ => 0)]
  exact h.2.2 (by decide)

/-- Claim C9: `Init` reports an invalid parameter exactly when the target is
missing, a given CIBIR hex fails to decode into at most 6 bytes,
`iosize < 256`, a repeat flag is set while `runtime` is 0, or TCP is
combined with disabled encryption; every other configuration passes these
checks (worker threads are only created later, in `Start`). -/
theorem c9_init_validation (a : ClientArgs) :
    (clientInit a = InitStatus.invalidParameter ↔
      (a.target = none ∨
       (∃ s, a.cibir = some s ∧ decodeHexBuffer s 6 = 0) ∨
       a.ioSize < 256 ∨
       ((a.repeatConnections = true ∨ a.repeatStreams = true) ∧ a.runTime = 0) ∨
       (a.useTCP = true ∧ a.useEncryption = false))) ∧
    (clientInit a = InitStatus.success ↔
      ¬(a.target = none ∨
       (∃ s, a.cibir = some s ∧ decodeHexBuffer s 6 = 0) ∨
       a.ioSize < 256 ∨
       ((a.repeatConnections = true ∨ a.repeatStreams = true) ∧ a.runTime = 0) ∨
       (a.useTCP = true ∧ a.useEncryption = false))) := by
  obtain ⟨t, c, io, rc, rs, rt, tcp, enc⟩ := a
  cases c <;>
    simp only [clientInit] <;>
    split_ifs with h1 h2 h3 h4 h5 <;>
    simp_all

/-- Witness for C9 at concrete configurations: a missing target fails, and a
fully valid configuration passes. -/
theorem c9_init_validation_witness :
    clientInit ⟨none, none, 65536, false, false, 0, false, true⟩
      = InitStatus.invalidParameter ∧
    clientInit ⟨some ['h'], none, 65536, false, false, 0, false, true⟩
      = InitStatus.success := by
  constructor
  · exact (c9_init_validation
      ⟨none, none, 65536, false, false, 0, false, true⟩).1.mpr (Or.inl rfl)
  · exact (c9_init_validation
      ⟨some ['h'], none, 65536, false, false, 0, false, true⟩).2.mpr (by decide)

/-- Helper: `toBytesLE` produces exactly `w` bytes. -/
theorem toBytesLE_length (w : Nat) : ∀ n, (toBytesLE w n).length = w := by
  induction w with
  | zero => intro n; simp [toBytesLE]
  | succ k ih => intro n; simp [toBytesLE, ih]

/-- Helper: the little-endian round trip below `256 ^ w`. -/
theorem ofBytesLE_toBytesLE (w : Nat) : ∀ n, n < 256 ^ w →
    ofBytesLE (toBytesLE w n) = n := by
  induction w with
  | zero =>
    intro n h
    simp only [toBytesLE, ofBytesLE]
    simp at h
    omega
  | succ k ih =>
    intro n h
    have hdiv : n / 256 < 256 ^ k := by
      rw [Nat.div_lt_iff_lt_mul (by norm_num : 0 < 256)]
      calc n < 256 ^ (k + 1) := h
        _ = 256 ^ k * 256 := by ring
    simp only [toBytesLE, ofBytesLE]
    rw [ih (n / 256) hdiv]
    omega

/-- Helper: `parseSamples` inverts the 4-byte little-endian serialization. -/
theorem parseSamples_flatten : ∀ (l : List Nat), (∀ v ∈ l, v < 2 ^ 32) →
    parseSamples ((l.map (toBytesLE 4)).flatten) = l := by
  intro l
  induction l with
  | nil => intro _; simp [parseSamples]
  | cons a t ih =>
    intro h
    have ha : a < 256 ^ 4 := by
      have h1 := h a (by simp)
      have h2 : (256 : Nat) ^ 4 = 2 ^ 32 := by norm_num
      omega
    have hstep : parseSamples (toBytesLE 4 a ++ (t.map (toBytesLE 4)).flatten)
        = ofBytesLE (toBytesLE 4 a)
            :: parseSamples ((t.map (toBytesLE 4)).flatten) := rfl
    simp only [List.map_cons, List.flatten_cons]
    rw [hstep, ofBytesLE_toBytesLE 4 a ha, ih (fun v hv => h v (by simp [hv]))]

/-- Claim C10: with latency tracking active and `k ≤ MaxLatencyIndex`,
`GetExtraData` called with capacity `16 + 4k` writes `RunTime` into bytes
0..7, the capacity-derived count `k` into bytes 8..15, and the first `k`
latency samples in the following `4k` bytes, and succeeds; parsing the blob
back recovers `RunTime`, `k`, and the samples intact. -/
theorem c10_extra_data_roundtrip (c : ExtraDataInput) (k : Nat)
    (hmax : c.maxLatencyIndex ≠ 0) (hk : k ≤ c.maxLatencyIndex)
    (hlen : c.latencyValues.length = c.maxLatencyIndex)
    (hrt : c.runTime < 2 ^ 64) (hk64 : k < 2 ^ 64)
    (hvals : ∀ v ∈ c.latencyValues, v < 2 ^ 32) :
    ∃ blob, getExtraData c (16 + 4 * k) = some blob ∧
      blob.take 8 = toBytesLE 8 c.runTime ∧
      (blob.drop 8).take 8 = toBytesLE 8 k ∧
      blob.drop 16 = ((c.latencyValues.take k).map (toBytesLE 4)).flatten ∧
      parseExtraData blob = (c.runTime, k, c.latencyValues.take k) := by
  have hcount : (16 + 4 * k - 16) / 4 = k := by omega
  have hAlen : (toBytesLE 8 c.runTime).length = 8 := toBytesLE_length 8 _
  have hBlen : (toBytesLE 8 k).length = 8 := toBytesLE_length 8 _
  have hABlen : (toBytesLE 8 c.runTime ++ toBytesLE 8 k).length = 16 := by
    rw [List.length_append, hAlen, hBlen]
  have htake8 : ((toBytesLE 8 c.runTime ++ toBytesLE 8 k)
        ++ ((c.latencyValues.take k).map (toBytesLE 4)).flatten).take 8
      = toBytesLE 8 c.runTime := by
    rw [List.append_assoc]
    exact List.take_left' hAlen
  have hdrop8 : (((toBytesLE 8 c.runTime ++ toBytesLE 8 k)
        ++ ((c.latencyValues.take k).map (toBytesLE 4)).flatten).drop 8).take 8
      = toBytesLE 8 k := by
    rw [List.append_assoc, List.drop_left' hAlen]
    exact List.take_left' hBlen
  have hdrop16 : ((toBytesLE 8 c.runTime ++ toBytesLE 8 k)
        ++ ((c.latencyValues.take k).map (toBytesLE 4)).flatten).drop 16
      = ((c.latencyValues.take k).map (toBytesLE 4)).flatten :=
    List.drop_left' hABlen
  have h256 : (256 : Nat) ^ 8 = 2 ^ 64 := by norm_num
  refine ⟨toBytesLE 8 c.runTime ++ toBytesLE 8 k
      ++ ((c.latencyValues.take k).map (toBytesLE 4)).flatten, ?_, htake8,
      hdrop8, hdrop16, ?_⟩
  · simp only [getExtraData]
    rw [if_neg hmax, if_neg (by omega : ¬(16 + 4 * k < 16)), hcount,
      if_neg (by omega : ¬(c.latencyValues.length < k))]
  · simp only [parseExtraData, htake8, hdrop8, hdrop16]
    rw [ofBytesLE_toBytesLE 8 c.runTime (by omega),
      ofBytesLE_toBytesLE 8 k (by omega),
      parseSamples_flatten (c.latencyValues.take k)
        (fun v hv => hvals v (List.mem_of_mem_take hv))]

/-- Witness for C10 at a concrete input: `RunTime = 7`, two samples
`[10, 20]`, capacity for one sample. -/
theorem c10_extra_data_roundtrip_witness :
    ∃ blob, getExtraData ⟨7, 2, [10, 20]⟩ (16 + 4 * 1) = some blob ∧
      blob.take 8 = toBytesLE 8 7 ∧
      (blob.drop 8).take 8 = toBytesLE 8 1 ∧
      blob.drop 16 = (([10, 20].take 1).map (toBytesLE 4)).flatten ∧
      parseExtraData blob = (7, 1, [10, 20].take 1) :=
  c10_extra_data_roundtrip ⟨7, 2, [10, 20]⟩ 1 (by decide) (by decide)
    (by decide) (by norm_num) (by norm_num) (by decide)

end PerfClientModel
